import Mathlib

/-!
Verification development for the Paperify exam-paper generator
(`src/Paperify/main.py`).  The document model, CSV persistence
(`save_csv` / `load_csv`), the text-direction policy (`process_text`),
the placement policy (`draw_text`) and the paginated layout engine
(`export_pdf`) are embedded shallowly.  Python floats are modelled as
exact rationals; external library functions (the `arabic_reshaper`
reshape, the bidi `get_display`, and `textwrap.wrap`) are abstracted as
function parameters of the configuration, and Python's `str`/`int`
conversions and `str.split`/`str.join` are modelled by executable Lean
counterparts defined below.
-/

/-- Exam metadata collected by `SetupDetailsDialog` (all free-form strings).
The Python dict key `class` is a Lean keyword, so the field is `cls`. -/
structure Metadata where
  school : String
  test : String
  cls : String
  subject : String
  time : String
  marks : String
deriving DecidableEq

/-- A question dict: `type`, `text`, plus `options` (MCQ) or
`col_a`/`col_b` (Match Columns); absent keys are modelled as `[]`,
matching the `q.get('options', [])` / `q.get('col_a', [])` accesses. -/
structure Question where
  type : String
  text : String
  options : List String
  col_a : List String
  col_b : List String
deriving DecidableEq

/-- A section dict as produced by `SectionSetupDialog.save_data` and
`load_csv`. -/
structure Sect where
  name : String
  desc : String
  marks_per_q : Int
  attempt_count : Int
  total_marks : Int
  questions : List Question
deriving DecidableEq

/-- Model of `SectionSetupDialog.save_data`: rejects an empty title,
otherwise builds the section dict with
`total_marks = marks_per_q * attempt_count`. -/
def save_data (name desc : String) (marks_per_q attempt_count : Int)
    (questions : List Question) : Option Sect :=
  if name = "" then none
  else some { name := name, desc := desc, marks_per_q := marks_per_q,
              attempt_count := attempt_count,
              total_marks := marks_per_q * attempt_count,
              questions := questions }

/-! ### Python `str`/`int` conversion model

`str` on an `int` is modelled by Lean's `toString` (identical digit
strings); `int(s)` is modelled by `intParse`, which accepts an optional
leading minus sign followed by decimal digits and fails (raises) on
anything else. -/

/-- Numeric value of a decimal digit character. -/
def digitVal (c : Char) : Nat := c.toNat - 48

/-- Parse a non-empty all-digit character list, as Python `int` does for
unsigned input; `none` models a raised `ValueError`. -/
def natParse (l : List Char) : Option Nat :=
  if !l.isEmpty && l.all Char.isDigit then
    some (l.foldl (fun a c => a * 10 + digitVal c) 0)
  else none

/-- Model of Python `int(s)` on the strings this program produces and
consumes: optional minus sign, then decimal digits. -/
def intParse (s : String) : Option Int :=
  match s.data with
  | [] => none
  | c :: rest =>
    if c = '-' then (natParse rest).map (fun n => -(n : Int))
    else (natParse (c :: rest)).map (fun n => (n : Int))

/-- Model of Python `str` on ints (agrees with Lean `toString`). -/
def intStr (n : Int) : String := toString n

/-! ### Python `str.split('|')` / `'|'.join` model (character level) -/

/-- Python `s.split(sep)` for a single-character separator: splitting the
empty string yields `[""]`, and separators produce empty pieces. -/
def pySplit (sep : Char) : List Char → List (List Char)
  | [] => [[]]
  | c :: rest =>
    match pySplit sep rest with
    | [] => []
    | h :: t => if c = sep then [] :: h :: t else (c :: h) :: t

/-- Python `sep.join(pieces)` for a single-character separator. -/
def pyJoin (sep : Char) (l : List (List Char)) : List Char :=
  (List.intersperse [sep] l).flatten

/-- Model of `'|'.join` on strings. -/
def pyJoinPipe (l : List String) : String := ⟨pyJoin '|' (l.map String.data)⟩

/-- Model of `s.split('|')` on strings. -/
def pySplitPipe (s : String) : List String :=
  (pySplit '|' s.data).map (fun l => ⟨l⟩)

/-! ### CSV persistence (`save_csv` / `load_csv`)

A CSV file is modelled as a list of records, each a list of string
fields; Python's `csv` writer/reader pair round-trips arbitrary field
strings, so quoting is abstracted away. -/

/-- The record `save_csv` writes for one question. -/
def qRecord (q : Question) : List String :=
  "Q" :: q.type :: q.text ::
    (if q.type = "MCQ" then q.options
     else if q.type = "Match Columns" then
       [pyJoinPipe q.col_a, pyJoinPipe q.col_b]
     else [])

/-- The record `save_csv` writes for one section (name, description and
the two factors; `total_marks` is not written). -/
def secRecord (s : Sect) : List String :=
  ["SEC", s.name, s.desc, intStr s.marks_per_q, intStr s.attempt_count]

/-- The block of records `save_csv` writes for one section. -/
def secBlock (s : Sect) : List (List String) :=
  secRecord s :: s.questions.map qRecord

/-- Full output of `save_csv`: a `META` record, then per section its
`SEC` record followed by its question records. -/
def saveRows (md : Metadata) (sections : List Sect) : List (List String) :=
  ["META", md.school, md.test, md.cls, md.subject, md.time, md.marks] ::
    sections.flatMap secBlock

/-- Parse of a `SEC` record in `load_csv`: fields 1-4 are accessed
positionally (`IndexError` on a short record models as `none`), the two
numeric fields go through `int`, and `total_marks` is recomputed as
`int(row[3]) * int(row[4])`. -/
def parseSecRow (row : List String) : Option Sect :=
  (row.get? 1).bind fun name =>
  (row.get? 2).bind fun desc =>
  (row.get? 3).bind fun f3 =>
  (row.get? 4).bind fun f4 =>
  (intParse f3).bind fun m =>
  (intParse f4).bind fun a =>
  some { name := name, desc := desc, marks_per_q := m, attempt_count := a,
         total_marks := m * a, questions := [] }

/-- Parse of a `Q` record in `load_csv`: `options = row[3:]` for MCQ,
pipe-split columns for Match Columns, nothing extra otherwise. -/
def parseQRow (row : List String) : Option Question := do
  let t ← row.get? 1
  let txt ← row.get? 2
  if t = "MCQ" then
    pure { type := t, text := txt, options := row.drop 3, col_a := [], col_b := [] }
  else if t = "Match Columns" then do
    let a ← row.get? 3
    let b ← row.get? 4
    pure { type := t, text := txt, options := [],
           col_a := pySplitPipe a, col_b := pySplitPipe b }
  else
    pure { type := t, text := txt, options := [], col_a := [], col_b := [] }

/-- Append a parsed question to the current section, which (when one
exists) is always the most recently appended element of `self.sections`;
mirrors `curr_sec['questions'].append(q)` through the alias. -/
def appendToLast : List Sect → Question → List Sect
  | [], _ => []
  | [s], q => [{ s with questions := s.questions ++ [q] }]
  | s :: rest, q => s :: appendToLast rest q

/-- The `load_csv` row loop.  State: the accumulated `self.sections` and
a flag recording whether `curr_sec` is set.  The result pairs the final
state with `true` on normal completion and `false` when a row raised
(the `except` clause catches the exception and only prints it, leaving
`self.sections` as accumulated so far). -/
def loadRows : List (List String) → List Sect × Bool → (List Sect × Bool) × Bool
  | [], st => (st, true)
  | row :: rest, st =>
    match row with
    | [] => loadRows rest st
    | tag :: _ =>
      if tag = "META" then loadRows rest st
      else if tag = "SEC" then
        match parseSecRow row with
        | some s => loadRows rest (st.1 ++ [s], true)
        | none => (st, false)
      else if tag = "Q" && st.2 then
        match parseQRow row with
        | some q => loadRows rest (appendToLast st.1 q, st.2)
        | none => (st, false)
      else loadRows rest st

/-- Model of `load_csv` on a chosen file: `self.sections` is reset to
`[]` before the `try` block, then rows are processed; the returned flag
is `false` when the load raised mid-way.  The prior in-memory document
does not appear: the code overwrites it unconditionally. -/
def load_csv (rows : List (List String)) : List Sect × Bool :=
  let r := loadRows rows ([], false)
  (r.1.1, r.2)

/-! ### Renderer: geometry constants (exact rationals) -/

def PAGE_W : ℚ := 8.27
def PAGE_H : ℚ := 11.69
def MARGIN_X : ℚ := 0.5
def MARGIN_TOP : ℚ := 0.5
def MARGIN_BTM : ℚ := 0.5
def CONTENT_W : ℚ := PAGE_W - 2 * MARGIN_X
def LH : ℚ := 0.21

/-- A drawing primitive placed on the current matplotlib axes: a text
run (`ax.text`), a fancy box patch (`ax.add_patch`) or a horizontal
rule (`ax.plot`). -/
inductive Prim where
  | text (x y : ℚ) (txt : String) (fs : ℚ) (weight ha va : String)
      (font : Option String)
  | box (x y w h : ℚ)
  | rule (x1 x2 y : ℚ)
deriving DecidableEq

/-- Renderer configuration: the `HAS_URDU_LIB` flag, the two shaping
library functions (abstract), the optional Urdu font path, the
`textwrap.wrap` function (abstract) and the exam metadata. -/
structure Cfg where
  hasLib : Bool
  reshape : String → String
  get_display : String → String
  urdu_font_path : Option String
  wrap : String → Nat → List String
  md : Metadata

/-- Membership of a code point in the Arabic/Urdu block, i.e. a match of
the regex `[؀-ۿ]` at that character. -/
def isUrduChar (c : Char) : Bool := 0x600 ≤ c.toNat && c.toNat ≤ 0x6FF

/-- Model of `ExamGeneratorApp.process_text`; `not text` is Python's
emptiness test on the string. -/
def process_text (c : Cfg) (text : String) : String × Option String × Bool :=
  if !c.hasLib || text.data.isEmpty then (text, none, false)
  else if text.data.any isUrduChar then
    (c.get_display (c.reshape text), c.urdu_font_path, true)
  else (text, none, false)

/-- Model of the nested `draw_text` helper of `export_pdf`: shapes the
text, downgrades weight and bumps the font size for Urdu runs, and —
when `force_rtl` and the run is Urdu — flips start/end alignment and
reflects the x coordinate across the page.  Returns the placed primitive
and the `is_urdu` flag. -/
def draw_text (c : Cfg) (x y : ℚ) (txt : String) (fs : ℚ)
    (weight ha va : String) (force_rtl : Bool) : Prim × Bool :=
  let r := process_text c txt
  let eff_weight := if r.2.2 then "normal" else weight
  let eff_fs := if r.2.2 then fs + 1 else fs
  let p : ℚ × String :=
    if r.2.2 && force_rtl then
      if ha = "left" then (PAGE_W - x, "right")
      else if ha = "right" then (PAGE_W - x, "left")
      else (x, ha)
    else (x, ha)
  (Prim.text p.1 y r.1 eff_fs eff_weight p.2 va r.2.1, r.2.2)

/-- Layout state of `export_pdf`: finished pages, the primitives on the
current figure, and the descending cursor. -/
structure LS where
  pages : List (List Prim)
  cur : List Prim
  y : ℚ

/-- The header block drawn once at the start of the document (bordered
box, school and test title, rule, two metadata rows, name/roll line). -/
def headerPrims (c : Cfg) : List Prim :=
  let y0 := PAGE_H - MARGIN_TOP
  let cx := PAGE_W / 2
  let ruleY := y0 - 0.8
  let metaY := ruleY - 0.3
  let metaY2 := metaY - 0.25
  let nameY := metaY2 - 0.35
  [Prim.box MARGIN_X (y0 - 2) CONTENT_W 2,
   (draw_text c cx (y0 - 0.3) c.md.school 18 "bold" "center" "baseline" true).1,
   (draw_text c cx (y0 - 0.6) c.md.test 14 "bold" "center" "baseline" true).1,
   Prim.rule (MARGIN_X + 0.2) (PAGE_W - MARGIN_X - 0.2) ruleY,
   (draw_text c (MARGIN_X + 0.2) metaY ("Class: " ++ c.md.cls) 12 "normal" "left" "baseline" true).1,
   (draw_text c (cx + 0.5) metaY ("Time: " ++ c.md.time) 12 "normal" "left" "baseline" true).1,
   (draw_text c (MARGIN_X + 0.2) metaY2 ("Subject: " ++ c.md.subject) 12 "normal" "left" "baseline" true).1,
   (draw_text c (cx + 0.5) metaY2 ("Marks: " ++ c.md.marks) 12 "normal" "left" "baseline" true).1,
   (draw_text c (MARGIN_X + 0.2) nameY "Name: __________________________" 12 "normal" "left" "baseline" true).1,
   (draw_text c (cx + 0.5) nameY "Roll No: ____________" 12 "normal" "left" "baseline" true).1]

/-- Layout state after the header block: cursor has descended by the box
height plus gap (`H_BOX_H + 0.3`). -/
def initLS (c : Cfg) : LS :=
  { pages := [], cur := headerPrims c, y := PAGE_H - MARGIN_TOP - (2 + 0.3) }

/-- Required vertical extent estimated for a question before drawing it:
wrapped line count times line height, plus `0.15`, plus `0.8` for MCQ
and `1.5` for Match Columns. -/
def qReqH (c : Cfg) (q : Question) : ℚ :=
  ((c.wrap q.text 80).length : ℚ) * LH + 0.15 +
    (if q.type = "MCQ" then 0.8 else 0) +
    (if q.type = "Match Columns" then 1.5 else 0)

/-- One iteration of the Match Columns row loop: each column is drawn
only when its entry exists (`if i < len(col)`), and the cursor descends
one line height. -/
def matchRowStep (c : Cfg) (col_a col_b : List String)
    (acc : List Prim × ℚ) (i : Nat) : List Prim × ℚ :=
  (acc.1 ++
    (if i < col_a.length then
      [(draw_text c (MARGIN_X + 1) acc.2 (col_a.getD i "") 12 "normal" "left" "baseline" true).1]
     else []) ++
    (if i < col_b.length then
      [(draw_text c (MARGIN_X + 4) acc.2 (col_b.getD i "") 12 "normal" "left" "baseline" true).1]
     else []),
   acc.2 - LH)

/-- The row loop of the Match Columns trailer: one row per index below
`max (len col_a) (len col_b)`. -/
def matchRows (c : Cfg) (col_a col_b : List String) (y : ℚ) : List Prim × ℚ :=
  (List.range (max col_a.length col_b.length)).foldl
    (matchRowStep c col_a col_b) ([], y)

/-- One iteration of the wrapped-line loop of the question body: draw
the line at the anchor, advance the cursor one line height. -/
def lineStep (c : Cfg) (anchor : ℚ) (lnAlign : String)
    (acc : List Prim × ℚ) (ln : String) : List Prim × ℚ :=
  (acc.1 ++ [(draw_text c anchor acc.2 ln 12 "normal" lnAlign "top" false).1],
   acc.2 - LH)

/-- Drawing part of the per-question loop body (everything after the
space check): question number, wrapped text lines, then the
type-specific trailer.  Never flushes a page. -/
def drawQuestion (c : Cfg) (st : LS) (iq : Nat × Question) : LS :=
  let q := iq.2
  let q_num := intStr ((iq.1 : Int) + 1) ++ "."
  let lines := c.wrap q.text 80
  let is_urdu_q := (process_text c q.text).2.2
  let anchor : ℚ := if is_urdu_q then PAGE_W - MARGIN_X - 0.1 else MARGIN_X + 0.5
  let lnAlign := if is_urdu_q then "right" else "left"
  let numPrim := (draw_text c MARGIN_X st.y q_num 12 "bold" "left" "top" false).1
  let lr := lines.foldl (lineStep c anchor lnAlign) ([], st.y)
  let cur := st.cur ++ numPrim :: lr.1
  let y := lr.2 - 0.1
  if q.type = "MCQ" then
    let opts := q.options
    let opt_y := y
    if is_urdu_q then
      let ps :=
        (if opts.length > 0 then
          [(draw_text c anchor opt_y (opts.getD 0 "" ++ " (a)") 12 "normal" "right" "baseline" false).1]
         else []) ++
        (if opts.length > 2 then
          [(draw_text c anchor (opt_y - LH) (opts.getD 2 "" ++ " (c)") 12 "normal" "right" "baseline" false).1]
         else []) ++
        (if opts.length > 1 then
          [(draw_text c (anchor - 3.5) opt_y (opts.getD 1 "" ++ " (b)") 12 "normal" "right" "baseline" false).1]
         else []) ++
        (if opts.length > 3 then
          [(draw_text c (anchor - 3.5) (opt_y - LH) (opts.getD 3 "" ++ " (d)") 12 "normal" "right" "baseline" false).1]
         else [])
      { pages := st.pages, cur := cur ++ ps, y := opt_y - 2 * LH - 0.15 }
    else
      let ps1 :=
        (if opts.length > 0 then
          [(draw_text c anchor opt_y ("(a) " ++ opts.getD 0 "") 12 "normal" "left" "baseline" true).1]
         else []) ++
        (if opts.length > 1 then
          [(draw_text c (anchor + 3.5) opt_y ("(b) " ++ opts.getD 1 "") 12 "normal" "left" "baseline" true).1]
         else [])
      let opt_y2 := opt_y - LH
      let ps2 :=
        (if opts.length > 2 then
          [(draw_text c anchor opt_y2 ("(c) " ++ opts.getD 2 "") 12 "normal" "left" "baseline" true).1]
         else []) ++
        (if opts.length > 3 then
          [(draw_text c (anchor + 3.5) opt_y2 ("(d) " ++ opts.getD 3 "") 12 "normal" "left" "baseline" true).1]
         else [])
      { pages := st.pages, cur := cur ++ ps1 ++ ps2, y := opt_y2 - 0.2 }
  else if q.type = "Match Columns" then
    let hA := (draw_text c (MARGIN_X + 1) y "Column A" 12 "bold" "left" "baseline" true).1
    let hB := (draw_text c (MARGIN_X + 4) y "Column B" 12 "bold" "left" "baseline" true).1
    let rr := matchRows c q.col_a q.col_b (y - LH)
    { pages := st.pages, cur := cur ++ hA :: hB :: rr.1, y := rr.2 - 0.2 }
  else
    { pages := st.pages, cur := cur, y := y }

/-- Per-question loop body: estimate the required extent, flush and start
a new page when it does not fit above the bottom margin, then draw. -/
def renderQuestion (c : Cfg) (st : LS) (iq : Nat × Question) : LS :=
  let st' :=
    if st.y - qReqH c iq.2 < MARGIN_BTM then
      { pages := st.pages ++ [st.cur], cur := ([] : List Prim),
        y := PAGE_H - MARGIN_TOP }
    else st
  drawQuestion c st' iq

/-- Section header: page break when the cursor is within `1.0` of the
bottom margin, then the rounded box, title+description and the
`(m x a = total)` annotation; cursor descends by `SEC_H + 0.2`. -/
def sectionHead (c : Cfg) (st : LS) (s : Sect) : LS :=
  let st' :=
    if st.y < MARGIN_BTM + 1 then
      { pages := st.pages ++ [st.cur], cur := ([] : List Prim),
        y := PAGE_H - MARGIN_TOP }
    else st
  let sy := st'.y - 0.25
  let title := s.name ++ "   " ++ s.desc
  let marks := "(" ++ intStr s.marks_per_q ++ " x " ++ intStr s.attempt_count ++
    " = " ++ intStr s.total_marks ++ ")"
  { pages := st'.pages,
    cur := st'.cur ++
      [Prim.box MARGIN_X (st'.y - 0.4) CONTENT_W 0.4,
       (draw_text c (MARGIN_X + 0.1) sy title 12 "bold" "left" "baseline" true).1,
       (draw_text c (PAGE_W - MARGIN_X - 0.1) sy marks 12 "bold" "right" "baseline" true).1],
    y := st'.y - 0.6 }

/-- One section: header then the enumerated question loop. -/
def renderSection (c : Cfg) (st : LS) (s : Sect) : LS :=
  s.questions.enum.foldl (renderQuestion c) (sectionHead c st s)

/-- Model of `export_pdf` on a document: header page state, the section
loop, then the final `pdf.savefig` appending the last figure. -/
def export_pdf (c : Cfg) (sections : List Sect) : List (List Prim) :=
  let st := sections.foldl (renderSection c) (initLS c)
  st.pages ++ [st.cur]

/-- Question loop body paired with a flag recording whether any
question's space check has fired so far. -/
def renderQuestionB (c : Cfg) (st : LS × Bool) (iq : Nat × Question) : LS × Bool :=
  (renderQuestion c st.1 iq,
   st.2 || decide (st.1.y - qReqH c iq.2 < MARGIN_BTM))

/-- Section loop body paired with the same flag. -/
def renderSectionB (c : Cfg) (st : LS × Bool) (s : Sect) : LS × Bool :=
  s.questions.enum.foldl (renderQuestionB c) (sectionHead c st.1 s, st.2)

/-- Whether any question's space check fires during the export of the
given document. -/
def anyBreak (c : Cfg) (sections : List Sect) : Bool :=
  (sections.foldl (renderSectionB c) (initLS c, false)).2

/-! ### Model of `textwrap.wrap` for simple inputs

Concrete documents in witnesses use this executable greedy filler; it
agrees with Python's `textwrap.wrap` on texts made of space-separated
words no longer than the width. -/

/-- Split a character list into whitespace-separated words. -/
def wordsAux : List Char → List Char → List (List Char)
  | [], acc => if acc.isEmpty then [] else [acc.reverse]
  | cc :: rest, acc =>
    if cc = ' ' then
      if acc.isEmpty then wordsAux rest [] else acc.reverse :: wordsAux rest []
    else wordsAux rest (cc :: acc)

/-- Greedy line filling at a given width. -/
def fillAux (width : Nat) : List (List Char) → List Char → List (List Char)
  | [], line => [line]
  | w :: ws, line =>
    if line.length + 1 + w.length ≤ width then fillAux width ws (line ++ ' ' :: w)
    else line :: fillAux width ws w

/-- Executable stand-in for `textwrap.wrap` on simple inputs. -/
def simpleWrap (s : String) (width : Nat) : List String :=
  match wordsAux s.data [] with
  | [] => []
  | w :: ws => (fillAux width ws w).map (fun l => ⟨l⟩)

/-! ### Views and predicates used by the claims -/

/-- The components of a question that the round-trip claim says are
preserved: type, text, MCQ options, Match Columns columns; fields the
Python dict would not carry for the given type are masked to `[]`. -/
def qView (q : Question) : Question :=
  { type := q.type, text := q.text,
    options := if q.type = "MCQ" then q.options else [],
    col_a := if q.type = "Match Columns" then q.col_a else [],
    col_b := if q.type = "Match Columns" then q.col_b else [] }

/-- The components of a section that the round-trip claim says are
preserved: everything except the derived `total_marks`, which is masked
to `0`. -/
def sView (s : Sect) : Sect :=
  { name := s.name, desc := s.desc, marks_per_q := s.marks_per_q,
    attempt_count := s.attempt_count, total_marks := 0,
    questions := s.questions.map qView }

/-- Sufficient condition for the save/load round trip: every
Match Columns question has two non-empty columns whose entries contain
no `'|'` separator character. -/
def roundtripSafe (sections : List Sect) : Bool :=
  sections.all fun s => s.questions.all fun q =>
    q.type ≠ "Match Columns" ||
      (!q.col_a.isEmpty && !q.col_b.isEmpty &&
        (q.col_a ++ q.col_b).all fun x => x.data.all (· ≠ '|'))

/-- Whether a primitive is a horizontal rule. -/
def isRulePrim : Prim → Bool
  | .rule _ _ _ => true
  | _ => false

/-- The text content of a text primitive. -/
def textOf : Prim → Option String
  | .text _ _ txt _ _ _ _ _ => some txt
  | _ => none

/-- Whether a primitive is a center-aligned text run placed at height at
most `b`. -/
def centeredAtOrBelow (b : ℚ) : Prim → Bool
  | .text _ y _ _ _ ha _ _ => ha = "center" && decide (y ≤ b)
  | _ => false

/-- The cumulative required extent of all questions of a document, the
quantity the claimed pagination bound sums. -/
def cumulativeRequiredExtent (c : Cfg) (sections : List Sect) : ℚ :=
  (sections.map (fun s => (s.questions.map (qReqH c)).sum)).sum

/-! ### Concrete configurations and documents used in closed statements -/

/-- Demo metadata. -/
def mdDemo : Metadata :=
  { school := "DAR-E-ARQAM SCHOOL", test := "Monthly Test", cls := "9th",
    subject := "Physics", time := "1 Hr 30 Mins", marks := "50" }

/-- Configuration without the shaping library. -/
def cDemo : Cfg :=
  { hasLib := false, reshape := id, get_display := id, urdu_font_path := none,
    wrap := simpleWrap, md := mdDemo }

/-- Configuration with the shaping library available (the two shaping
functions instantiated with the identity for concrete evaluation). -/
def cLib : Cfg :=
  { hasLib := true, reshape := id, get_display := id,
    urdu_font_path := some "JNN.ttf", wrap := simpleWrap, md := mdDemo }

/-- The question that reloading produces for a saved question. -/
def reloadQ (q : Question) : Question := (parseQRow (qRecord q)).getD q

/-- The section that reloading produces for a saved section:
`total_marks` is recomputed from the factors and every question is
reloaded. -/
def reloadSec (s : Sect) : Sect :=
  { name := s.name, desc := s.desc, marks_per_q := s.marks_per_q,
    attempt_count := s.attempt_count,
    total_marks := s.marks_per_q * s.attempt_count,
    questions := s.questions.map reloadQ }

/-- A document with one section containing one question of each type. -/
def docSafe : List Sect :=
  [⟨"Section A", "Attempt all", 2, 3, 6,
    [⟨"MCQ", "Pick one", ["a1", "a2", "a3", "a4"], [], []⟩,
     ⟨"Match Columns", "match", [], ["p", "q"], ["r"]⟩,
     ⟨"Short/Long Question", "Explain", [], [], []⟩]⟩]

/-- A Match Columns entry containing the `'|'` separator. -/
def secPipe : Sect :=
  ⟨"Section A", "d", 2, 3, 6, [⟨"Match Columns", "match these", [], ["x|y"], ["z"]⟩]⟩

/-- Rows whose second record has an unparsable numeric field. -/
def rowsBadDemo : List (List String) :=
  [["SEC", "S1", "d", "2", "3"], ["SEC", "S2", "d", "x", "1"]]

/-- A Match Columns question with columns of lengths 3 and 1. -/
def qM31 : Question := ⟨"Match Columns", "match", [], ["a1", "a2", "a3"], ["b1"]⟩

/-- A one-line MCQ question (its text wraps to a single line). -/
def qMcq : Question := ⟨"MCQ", "Q1", ["a", "b", "c", "d"], [], []⟩

/-- Ten one-line MCQ questions in one section. -/
def secTen : Sect :=
  ⟨"A", "Attempt all", 1, 10, 10,
    [qMcq, qMcq, qMcq, qMcq, qMcq, qMcq, qMcq, qMcq, qMcq, qMcq]⟩

/-- Eleven one-line MCQ questions in one section. -/
def secEleven : Sect :=
  ⟨"A", "Attempt all", 1, 11, 11,
    [qMcq, qMcq, qMcq, qMcq, qMcq, qMcq, qMcq, qMcq, qMcq, qMcq, qMcq]⟩

/-- Layout-state invariant: no primitive anywhere (finished pages or
current page) is a centered run at or below the bound. -/
def stOK (bnd : ℚ) (st : LS) : Prop :=
  (∀ p ∈ st.pages, ∀ q ∈ p, centeredAtOrBelow bnd q = false) ∧
  (∀ q ∈ st.cur, centeredAtOrBelow bnd q = false)

/-! ### `str` / `int` round trip -/

/-- Big-endian decimal digit characters of a natural number, the
reference rendering that `Nat.toDigitsCore` produces. -/
def reprDigits (n : Nat) : List Char :=
  if _h : n < 10 then [Nat.digitChar n]
  else reprDigits (n / 10) ++ [Nat.digitChar (n % 10)]
termination_by n
decreasing_by exact Nat.div_lt_self (by omega) (by norm_num)

theorem digitChar_isDigit (d : Nat) (h : d < 10) :
    (Nat.digitChar d).isDigit = true := by
  interval_cases d <;> decide

theorem digitVal_digitChar (d : Nat) (h : d < 10) :
    digitVal (Nat.digitChar d) = d := by
  interval_cases d <;> decide

theorem toDigitsCore_eq :
    ∀ (fuel n : Nat) (ds : List Char), n < fuel →
      Nat.toDigitsCore 10 fuel n ds = reprDigits n ++ ds := by
  intro fuel
  induction fuel with
  | zero => intro n ds h; omega
  | succ f ih =>
    intro n ds h
    rw [Nat.toDigitsCore]
    by_cases h0 : n / 10 = 0
    · have hn : n < 10 := by omega
      rw [reprDigits, dif_pos hn]
      simp [h0, Nat.mod_eq_of_lt hn]
    · have hn : ¬ n < 10 := by omega
      rw [reprDigits, dif_neg hn]
      simp only [h0, if_false]
      rw [ih (n / 10) _ (by omega)]
      simp

theorem reprDigits_ne_nil (n : Nat) : reprDigits n ≠ [] := by
  rw [reprDigits]
  by_cases h : n < 10 <;> simp [h]

theorem reprDigits_all_digits (n : Nat) :
    ∀ ch ∈ reprDigits n, ch.isDigit = true := by
  induction n using Nat.strong_induction_on with
  | _ n ih =>
    rw [reprDigits]
    by_cases h : n < 10
    · simp only [dif_pos h, List.mem_singleton]
      intro ch hc; subst hc; exact digitChar_isDigit n h
    · simp only [dif_neg h, List.mem_append, List.mem_singleton]
      intro ch hc
      rcases hc with hc | hc
      · exact ih (n / 10) (Nat.div_lt_self (by omega) (by norm_num)) ch hc
      · subst hc; exact digitChar_isDigit _ (Nat.mod_lt _ (by norm_num))

theorem reprDigits_foldl (n : Nat) : ∀ a : Nat,
    (reprDigits n).foldl (fun a c => a * 10 + digitVal c) a =
      a * 10 ^ (reprDigits n).length + n := by
  induction n using Nat.strong_induction_on with
  | _ n ih =>
    intro a
    rw [reprDigits]
    by_cases h : n < 10
    · simp [dif_pos h, digitVal_digitChar n h]
    · simp only [dif_neg h, List.foldl_append, List.length_append,
        List.foldl_cons, List.foldl_nil, List.length_cons, List.length_nil]
      rw [ih (n / 10) (Nat.div_lt_self (by omega) (by norm_num)) a]
      rw [digitVal_digitChar _ (Nat.mod_lt _ (by norm_num))]
      have : a * 10 ^ ((reprDigits (n / 10)).length + (0 + 1)) =
          a * 10 ^ (reprDigits (n / 10)).length * 10 := by ring
      rw [this]
      omega

theorem natParse_reprDigits (n : Nat) : natParse (reprDigits n) = some n := by
  have hne : ¬ (reprDigits n).isEmpty := by
    simp [List.isEmpty_iff, reprDigits_ne_nil n]
  have hall : (reprDigits n).all Char.isDigit = true := by
    simp only [List.all_eq_true]
    exact reprDigits_all_digits n
  rw [natParse, if_pos (by simp [hne, hall]), reprDigits_foldl n 0]
  simp

theorem repr_data (n : Nat) : (Nat.repr n).data = reprDigits n := by
  show (Nat.toDigits 10 n).asString.data = reprDigits n
  rw [Nat.toDigits, toDigitsCore_eq (n + 1) n [] (by omega)]
  simp [List.asString]

theorem intStr_ofNat (m : Nat) : intStr (Int.ofNat m) = Nat.repr m := rfl

theorem intStr_negSucc (m : Nat) :
    intStr (Int.negSucc m) = "-" ++ Nat.repr (m + 1) := rfl

theorem intParse_intStr (n : Int) : intParse (intStr n) = some n := by
  cases n with
  | ofNat m =>
    rw [intStr_ofNat]
    obtain ⟨ch, rest, hcr⟩ := List.exists_cons_of_ne_nil (reprDigits_ne_nil m)
    have hd : ch.isDigit = true := by
      apply reprDigits_all_digits m
      rw [hcr]; exact List.mem_cons_self _ _
    have hnd : ¬ ch = '-' := by
      intro hc; rw [hc] at hd; exact absurd hd (by decide)
    rw [intParse, repr_data, hcr]
    simp only [hnd, if_false]
    rw [← hcr, natParse_reprDigits]
    rfl
  | negSucc m =>
    rw [intStr_negSucc]
    have hdata : ("-" ++ Nat.repr (m + 1)).data = '-' :: reprDigits (m + 1) := by
      show ("-").data ++ (Nat.repr (m + 1)).data = _
      rw [repr_data]; rfl
    rw [intParse, hdata]
    simp only [if_pos rfl, natParse_reprDigits]
    simp [Int.negSucc_eq]

/-! ### `split('|')` / `'|'.join` round trip -/

theorem pySplit_ne_nil (sep : Char) : ∀ l : List Char, pySplit sep l ≠ []
  | [] => by simp [pySplit]
  | c :: rest => by
    rw [pySplit]
    have := pySplit_ne_nil sep rest
    match h : pySplit sep rest with
    | [] => exact absurd h this
    | x :: t => by_cases hc : c = sep <;> simp [hc]

theorem pySplit_no_sep (sep : Char) :
    ∀ l : List Char, sep ∉ l → pySplit sep l = [l]
  | [], _ => by simp [pySplit]
  | c :: rest, h => by
    have hc : ¬ c = sep := fun hh => h (hh ▸ List.mem_cons_self _ _)
    have hr : sep ∉ rest := fun hh => h (List.mem_cons_of_mem _ hh)
    rw [pySplit, pySplit_no_sep sep rest hr]
    simp [hc]

theorem pySplit_append (sep : Char) :
    ∀ (x rest : List Char), sep ∉ x →
      pySplit sep (x ++ sep :: rest) = x :: pySplit sep rest
  | [], rest, _ => by
    rw [List.nil_append, pySplit]
    obtain ⟨h, t, hht⟩ :=
      List.exists_cons_of_ne_nil (pySplit_ne_nil sep rest)
    rw [hht]; simp [← hht]
  | c :: x', rest, h => by
    have hc : ¬ c = sep := fun hh => h (hh ▸ List.mem_cons_self _ _)
    have hx : sep ∉ x' := fun hh => h (List.mem_cons_of_mem _ hh)
    rw [List.cons_append, pySplit, pySplit_append sep x' rest hx]
    simp [hc]

theorem pySplit_pyJoin (sep : Char) :
    ∀ l : List (List Char), l ≠ [] → (∀ x ∈ l, sep ∉ x) →
      pySplit sep (pyJoin sep l) = l
  | [], h, _ => absurd rfl h
  | [x], _, hs => by
    rw [pyJoin]
    simp only [List.intersperse_singleton, List.flatten]
    rw [List.append_nil]
    exact pySplit_no_sep sep x (hs x (List.mem_singleton_self x))
  | x :: y :: t, _, hs => by
    rw [pyJoin, List.intersperse_cons_cons, List.flatten_cons, List.flatten_cons,
      List.singleton_append]
    rw [pySplit_append sep x _ (hs x (List.mem_cons_self _ _))]
    rw [show (List.intersperse [sep] (y :: t)).flatten = pyJoin sep (y :: t) from rfl]
    rw [pySplit_pyJoin sep (y :: t) (by simp)
      (fun z hz => hs z (List.mem_cons_of_mem _ hz))]

theorem pySplitPipe_pyJoinPipe (l : List String) (hne : l ≠ [])
    (hp : ∀ x ∈ l, ∀ ch ∈ x.data, ch ≠ '|') :
    pySplitPipe (pyJoinPipe l) = l := by
  rw [pySplitPipe, pyJoinPipe]
  have hdd : (String.mk (pyJoin '|' (l.map String.data))).data =
      pyJoin '|' (l.map String.data) := rfl
  rw [hdd, pySplit_pyJoin '|' (l.map String.data) (by simpa using hne)]
  · rw [List.map_map]
    have hid : ((fun d : List Char => (⟨d⟩ : String)) ∘ String.data) = id :=
      funext (fun s => rfl)
    rw [hid, List.map_id]
  · intro x hx
    obtain ⟨s, hs, hxs⟩ := List.mem_map.mp hx
    intro hmem
    exact hp s hs '|' (hxs ▸ hmem) rfl

/-! ### CSV load/save lemmas -/

theorem parseQRow_qRecord_isSome (q : Question) :
    (parseQRow (qRecord q)).isSome = true := by
  by_cases h1 : q.type = "MCQ"
  · simp [parseQRow, qRecord, h1]
  · by_cases h2 : q.type = "Match Columns"
    · simp [parseQRow, qRecord, h1, h2]
    · simp [parseQRow, qRecord, h1, h2]

theorem parseQRow_qRecord (q : Question) :
    parseQRow (qRecord q) = some (reloadQ q) := by
  have h := parseQRow_qRecord_isSome q
  rw [reloadQ]
  cases hp : parseQRow (qRecord q) with
  | some q' => simp
  | none => rw [hp] at h; simp at h

theorem reloadQ_mcq (q : Question) (h : q.type = "MCQ") :
    reloadQ q = { type := q.type, text := q.text, options := q.options,
                  col_a := [], col_b := [] } := by
  have := parseQRow_qRecord q
  rw [show parseQRow (qRecord q) =
      some { type := q.type, text := q.text, options := q.options,
             col_a := [], col_b := [] } from by
    simp [parseQRow, qRecord, h]] at this
  exact (Option.some_inj.mp this).symm

theorem reloadQ_match (q : Question) (h : q.type = "Match Columns") :
    reloadQ q = { type := q.type, text := q.text, options := [],
                  col_a := pySplitPipe (pyJoinPipe q.col_a),
                  col_b := pySplitPipe (pyJoinPipe q.col_b) } := by
  have := parseQRow_qRecord q
  have hne : q.type ≠ "MCQ" := by rw [h]; decide
  rw [show parseQRow (qRecord q) =
      some { type := q.type, text := q.text, options := [],
             col_a := pySplitPipe (pyJoinPipe q.col_a),
             col_b := pySplitPipe (pyJoinPipe q.col_b) } from by
    simp [parseQRow, qRecord, h, hne]] at this
  exact (Option.some_inj.mp this).symm

theorem reloadQ_other (q : Question) (h1 : q.type ≠ "MCQ")
    (h2 : q.type ≠ "Match Columns") :
    reloadQ q = { type := q.type, text := q.text, options := [],
                  col_a := [], col_b := [] } := by
  have := parseQRow_qRecord q
  rw [show parseQRow (qRecord q) =
      some { type := q.type, text := q.text, options := [],
             col_a := [], col_b := [] } from by
    simp [parseQRow, qRecord, h1, h2]] at this
  exact (Option.some_inj.mp this).symm

/-- Reloading preserves the viewed components of a question whenever
Match Columns columns are non-empty and pipe-free. -/
theorem qView_reloadQ (q : Question)
    (hq : q.type = "Match Columns" →
      q.col_a ≠ [] ∧ q.col_b ≠ [] ∧
        ∀ x ∈ q.col_a ++ q.col_b, ∀ ch ∈ x.data, ch ≠ '|') :
    qView (reloadQ q) = qView q := by
  by_cases h1 : q.type = "MCQ"
  · rw [reloadQ_mcq q h1]
    simp [qView, h1]
  · by_cases h2 : q.type = "Match Columns"
    · obtain ⟨ha, hb, hp⟩ := hq h2
      rw [reloadQ_match q h2]
      rw [pySplitPipe_pyJoinPipe q.col_a ha
        (fun x hx => hp x (List.mem_append_left _ hx))]
      rw [pySplitPipe_pyJoinPipe q.col_b hb
        (fun x hx => hp x (List.mem_append_right _ hx))]
      simp [qView, h2]
    · rw [reloadQ_other q h1 h2]
      simp [qView, h1, h2]

theorem parseSecRow_secRecord (s : Sect) :
    parseSecRow (secRecord s) =
      some { name := s.name, desc := s.desc, marks_per_q := s.marks_per_q,
             attempt_count := s.attempt_count,
             total_marks := s.marks_per_q * s.attempt_count,
             questions := [] } := by
  simp [parseSecRow, secRecord, intParse_intStr]

theorem appendToLast_concat :
    ∀ (l : List Sect) (s : Sect) (q : Question),
      appendToLast (l ++ [s]) q =
        l ++ [{ s with questions := s.questions ++ [q] }]
  | [], s, q => by simp [appendToLast]
  | a :: l, s, q => by
    cases l with
    | nil => simp [appendToLast]
    | cons b l' =>
      show a :: appendToLast ((b :: l') ++ [s]) q = _
      rw [appendToLast_concat (b :: l') s q]
      simp

theorem loadRows_cons_eq (row : List String) (rest : List (List String))
    (st : List Sect × Bool) :
    loadRows (row :: rest) st =
      match row with
      | [] => loadRows rest st
      | tag :: _ =>
        if tag = "META" then loadRows rest st
        else if tag = "SEC" then
          match parseSecRow row with
          | some s => loadRows rest (st.1 ++ [s], true)
          | none => (st, false)
        else if tag = "Q" && st.2 then
          match parseQRow row with
          | some q => loadRows rest (appendToLast st.1 q, st.2)
          | none => (st, false)
        else loadRows rest st := by
  rw [loadRows.eq_def]

theorem loadRows_q_step (tl : List String) (rest : List (List String))
    (secs : List Sect) :
    loadRows (("Q" :: tl) :: rest) (secs, true) =
      match parseQRow ("Q" :: tl) with
      | some q => loadRows rest (appendToLast secs q, true)
      | none => ((secs, true), false) := rfl

theorem loadRows_sec_step (tl : List String) (rest : List (List String))
    (st : List Sect × Bool) :
    loadRows (("SEC" :: tl) :: rest) st =
      match parseSecRow ("SEC" :: tl) with
      | some s => loadRows rest (st.1 ++ [s], true)
      | none => (st, false) := rfl

theorem loadRows_meta_step (tl : List String) (rest : List (List String))
    (st : List Sect × Bool) :
    loadRows (("META" :: tl) :: rest) st = loadRows rest st := rfl

theorem loadRows_qRecords :
    ∀ (qs : List Question) (rest : List (List String)) (acc : List Sect)
      (s : Sect),
      loadRows (qs.map qRecord ++ rest) (acc ++ [s], true) =
        loadRows rest
          (acc ++ [{ s with questions := s.questions ++ qs.map reloadQ }], true)
  | [], rest, acc, s => by simp
  | q :: qs, rest, acc, s => by
    rw [List.map_cons, List.cons_append]
    have hrec : qRecord q = "Q" :: q.type :: q.text ::
        (if q.type = "MCQ" then q.options
         else if q.type = "Match Columns" then
           [pyJoinPipe q.col_a, pyJoinPipe q.col_b]
         else []) := rfl
    rw [hrec, loadRows_q_step, ← hrec, parseQRow_qRecord]
    show loadRows (List.map qRecord qs ++ rest)
        (appendToLast (acc ++ [s]) (reloadQ q), true) = _
    rw [appendToLast_concat acc s (reloadQ q)]
    rw [loadRows_qRecords qs rest acc _]
    simp

theorem loadRows_tag_step (tag : String) (tl : List String)
    (rest : List (List String)) (st : List Sect × Bool) :
    loadRows ((tag :: tl) :: rest) st =
      if tag = "META" then loadRows rest st
      else if tag = "SEC" then
        match parseSecRow (tag :: tl) with
        | some s => loadRows rest (st.1 ++ [s], true)
        | none => (st, false)
      else if tag = "Q" && st.2 then
        match parseQRow (tag :: tl) with
        | some q => loadRows rest (appendToLast st.1 q, st.2)
        | none => (st, false)
      else loadRows rest st := rfl

theorem loadRows_blocks :
    ∀ (ss : List Sect) (acc : List Sect) (flag : Bool),
      loadRows (ss.flatMap secBlock) (acc, flag) =
        ((acc ++ ss.map reloadSec, if ss.isEmpty then flag else true), true)
  | [], acc, flag => by simp [loadRows]
  | s :: ss, acc, flag => by
    have hblk : (s :: ss).flatMap secBlock =
        (secRecord s :: s.questions.map qRecord) ++ ss.flatMap secBlock := by
      simp [secBlock]
    rw [hblk]
    have hrec : secRecord s =
        "SEC" :: [s.name, s.desc, intStr s.marks_per_q, intStr s.attempt_count] := rfl
    rw [List.cons_append, hrec, loadRows_sec_step, ← hrec, parseSecRow_secRecord]
    show loadRows (List.map qRecord s.questions ++ ss.flatMap secBlock)
        (acc ++ [_], true) = _
    rw [loadRows_qRecords s.questions (ss.flatMap secBlock) acc _]
    show loadRows (ss.flatMap secBlock) (acc ++ [reloadSec s], true) = _
    rw [loadRows_blocks ss (acc ++ [reloadSec s]) true]
    simp

theorem load_csv_saveRows (md : Metadata) (sections : List Sect) :
    load_csv (saveRows md sections) = (sections.map reloadSec, true) := by
  have hmeta : saveRows md sections =
      ("META" :: [md.school, md.test, md.cls, md.subject, md.time, md.marks]) ::
        sections.flatMap secBlock := rfl
  rw [load_csv, hmeta, loadRows_meta_step, loadRows_blocks sections [] false]
  simp

theorem sView_reloadSec (s : Sect)
    (hs : ∀ q ∈ s.questions, q.type = "Match Columns" →
      q.col_a ≠ [] ∧ q.col_b ≠ [] ∧
        ∀ x ∈ q.col_a ++ q.col_b, ∀ ch ∈ x.data, ch ≠ '|') :
    sView (reloadSec s) = sView s := by
  simp only [sView, reloadSec, List.map_map]
  refine congrArg _ ?_
  exact List.map_congr_left (fun q hq => qView_reloadQ q (hs q hq))

theorem roundtripSafe_spec (sections : List Sect)
    (h : roundtripSafe sections = true) :
    ∀ s ∈ sections, ∀ q ∈ s.questions, q.type = "Match Columns" →
      q.col_a ≠ [] ∧ q.col_b ≠ [] ∧
        ∀ x ∈ q.col_a ++ q.col_b, ∀ ch ∈ x.data, ch ≠ '|' := by
  intro s hs q hq hmc
  rw [roundtripSafe, List.all_eq_true] at h
  have hq' := (List.all_eq_true.mp (h s hs)) q hq
  rw [Bool.or_eq_true] at hq'
  rcases hq' with hq' | hq'
  · rw [decide_eq_true_eq] at hq'
    exact absurd hmc hq'
  · rw [Bool.and_eq_true, Bool.and_eq_true] at hq'
    obtain ⟨⟨ha, hb⟩, hp⟩ := hq'
    refine ⟨by simpa using ha, by simpa using hb, ?_⟩
    intro x hx ch hch
    have := (List.all_eq_true.mp hp) x hx
    have := (List.all_eq_true.mp this) ch hch
    simpa using this

theorem appendToLast_marks :
    ∀ (l : List Sect) (q : Question), ∀ s' ∈ appendToLast l q,
      ∃ s0 ∈ l, s'.total_marks = s0.total_marks ∧
        s'.marks_per_q = s0.marks_per_q ∧ s'.attempt_count = s0.attempt_count
  | [], q => by simp [appendToLast]
  | [s], q => by
    intro s' hs'
    rw [appendToLast] at hs'
    simp at hs'
    exact ⟨s, List.mem_singleton_self s, by simp [hs']⟩
  | s :: b :: rest, q => by
    intro s' hs'
    rw [show appendToLast (s :: b :: rest) q =
        s :: appendToLast (b :: rest) q from rfl] at hs'
    rcases List.mem_cons.mp hs' with h | h
    · exact ⟨s, List.mem_cons_self _ _, by simp [h]⟩
    · obtain ⟨s0, hs0, hfields⟩ := appendToLast_marks (b :: rest) q s' h
      exact ⟨s0, List.mem_cons_of_mem _ hs0, hfields⟩

theorem parseSecRow_total (row : List String) (s : Sect)
    (h : parseSecRow row = some s) :
    s.total_marks = s.marks_per_q * s.attempt_count := by
  simp only [parseSecRow, Option.bind_eq_some, Option.pure_def,
    Option.some.injEq] at h
  obtain ⟨n1, _, n2, _, n3, _, n4, _, m, _, a, _, heq⟩ := h
  rw [← heq]

theorem loadRows_step (row : List String) (st : List Sect × Bool) :
    (∃ st', (st'.1 = st.1 ∨ (∃ s, parseSecRow row = some s ∧ st'.1 = st.1 ++ [s]) ∨
        (∃ q, st'.1 = appendToLast st.1 q)) ∧
      ∀ l, loadRows (row :: l) st = loadRows l st') ∨
    (∀ l, loadRows (row :: l) st = (st, false)) := by
  cases row with
  | nil => exact Or.inl ⟨st, Or.inl rfl, fun l => rfl⟩
  | cons tag tl =>
    by_cases h1 : tag = "META"
    · refine Or.inl ⟨st, Or.inl rfl, fun l => ?_⟩
      rw [loadRows_tag_step, if_pos h1]
    · by_cases h2 : tag = "SEC"
      · rcases Option.eq_none_or_eq_some (parseSecRow (tag :: tl)) with hp | ⟨s, hp⟩
        · refine Or.inr fun l => ?_
          rw [loadRows_tag_step, if_neg h1, if_pos h2, hp]
        · refine Or.inl ⟨(st.1 ++ [s], true), Or.inr (Or.inl ⟨s, hp, rfl⟩), fun l => ?_⟩
          rw [loadRows_tag_step, if_neg h1, if_pos h2, hp]
      · by_cases h3 : (tag = "Q" && st.2) = true
        · rcases Option.eq_none_or_eq_some (parseQRow (tag :: tl)) with hq | ⟨q, hq⟩
          · refine Or.inr fun l => ?_
            rw [loadRows_tag_step, if_neg h1, if_neg h2, if_pos h3, hq]
          · refine Or.inl ⟨(appendToLast st.1 q, st.2), Or.inr (Or.inr ⟨q, rfl⟩), fun l => ?_⟩
            rw [loadRows_tag_step, if_neg h1, if_neg h2, if_pos h3, hq]
        · refine Or.inl ⟨st, Or.inl rfl, fun l => ?_⟩
          rw [loadRows_tag_step, if_neg h1, if_neg h2, if_neg h3]

theorem loadRows_totals :
    ∀ (rows : List (List String)) (st : List Sect × Bool),
      (∀ s ∈ st.1, s.total_marks = s.marks_per_q * s.attempt_count) →
      ∀ s ∈ (loadRows rows st).1.1,
        s.total_marks = s.marks_per_q * s.attempt_count
  | [], st, hinv => by simpa [loadRows] using hinv
  | row :: rest, st, hinv => by
    rcases loadRows_step row st with ⟨st', hst', hall⟩ | hfail
    · rw [hall rest]
      apply loadRows_totals rest st'
      rcases hst' with h | ⟨s, hp, h⟩ | ⟨q, h⟩
      · rw [h]; exact hinv
      · rw [h]
        intro s' hs'
        rcases List.mem_append.mp hs' with h' | h'
        · exact hinv s' h'
        · rw [List.mem_singleton.mp h']
          exact parseSecRow_total row s hp
      · rw [h]
        intro s' hs'
        obtain ⟨s0, hs0, ht, hm, ha⟩ := appendToLast_marks st.1 q s' hs'
        rw [ht, hm, ha]
        exact hinv s0 hs0
    · rw [hfail rest]
      simpa using hinv

theorem loadRows_take :
    ∀ (rows : List (List String)) (st : List Sect × Bool),
      (loadRows rows st).2 = false →
      ∃ k, (loadRows (rows.take k) st).2 = true ∧
        (loadRows rows st).1 = (loadRows (rows.take k) st).1
  | [], st, hf => by simp [loadRows] at hf
  | row :: rest, st, hf => by
    rcases loadRows_step row st with ⟨st', _, hall⟩ | hfail
    · rw [hall rest] at hf
      obtain ⟨k, hk1, hk2⟩ := loadRows_take rest st' hf
      refine ⟨k + 1, ?_, ?_⟩
      · rw [List.take_succ_cons, hall (rest.take k)]
        exact hk1
      · rw [List.take_succ_cons, hall (rest.take k), hall rest]
        exact hk2
    · exact ⟨0, by simp [loadRows], by rw [hfail rest]; simp [loadRows]⟩

/-! ### Helper lemmas for `process_text` / `draw_text` -/

theorem process_text_mk_false (r g : String → String) (f : Option String)
    (w : String → Nat → List String) (md : Metadata) (t : String) :
    process_text ⟨false, r, g, f, w, md⟩ t = (t, none, false) := rfl

theorem draw_text_mk_false (r g : String → String) (f : Option String)
    (w : String → Nat → List String) (md : Metadata) (x y : ℚ) (t : String)
    (fs : ℚ) (wt ha va : String) (fr : Bool) :
    draw_text ⟨false, r, g, f, w, md⟩ x y t fs wt ha va fr =
      (Prim.text x y t fs wt ha va none, false) := rfl

theorem process_text_false (c : Cfg) (hc : c.hasLib = false) (t : String) :
    process_text c t = (t, none, false) := by
  obtain ⟨hl, r, g, f, w, md⟩ := c
  cases hc
  exact process_text_mk_false r g f w md t

theorem draw_text_false (c : Cfg) (hc : c.hasLib = false) (x y : ℚ)
    (t : String) (fs : ℚ) (wt ha va : String) (fr : Bool) :
    draw_text c x y t fs wt ha va fr =
      (Prim.text x y t fs wt ha va none, false) := by
  obtain ⟨hl, r, g, f, w, md⟩ := c
  cases hc
  exact draw_text_mk_false r g f w md x y t fs wt ha va fr

/-! ### Claim C5: RTL detection in `process_text` -/

/-- C5 (confirmed).  With the shaping library available, `process_text`
flags a string as RTL exactly when some code point lies in
U+0600..U+06FF, and empty input is returned untouched with the flag
`false` (the latter for every configuration). -/
theorem c5_rtl_detection (c : Cfg) (hc : c.hasLib = true) :
    (∀ text : String,
      ((process_text c text).2.2 = true ↔
        ∃ ch ∈ text.data, 0x600 ≤ ch.toNat ∧ ch.toNat ≤ 0x6FF)) ∧
    ∀ c' : Cfg, process_text c' "" = ("", none, false) := by
  constructor
  · intro text
    rw [process_text, hc]
    by_cases he : text.data.isEmpty
    · rw [if_pos (by simp [he])]
      simp only [show (false = true) = False from by simp, false_iff]
      rintro ⟨ch, hch, _⟩
      rw [List.isEmpty_iff] at he
      rw [he] at hch
      exact absurd hch (List.not_mem_nil ch)
    · rw [if_neg (by simp [he])]
      by_cases ha : text.data.any isUrduChar
      · rw [if_pos ha]
        simp only [true_iff]
        obtain ⟨ch, hch, hu⟩ := List.any_eq_true.mp ha
        refine ⟨ch, hch, ?_⟩
        rw [isUrduChar, Bool.and_eq_true] at hu
        exact ⟨by simpa using hu.1, by simpa using hu.2⟩
      · rw [if_neg ha]
        simp only [show (false = true) = False from by simp, false_iff]
        rintro ⟨ch, hch, h1, h2⟩
        exact ha (List.any_eq_true.mpr ⟨ch, hch, by simp [isUrduChar, h1, h2]⟩)
  · intro c'
    rw [process_text]
    rw [if_pos (by simp : (!c'.hasLib || ("" : String).data.isEmpty) = true)]

/-- Witness for C5 at a mixed Latin/Urdu string and at the empty string. -/
theorem c5_rtl_detection_witness :
    cLib.hasLib = true ∧
      ((process_text cLib "ab ج cd").2.2 = true ↔
        ∃ ch ∈ ("ab ج cd" : String).data, 0x600 ≤ ch.toNat ∧ ch.toNat ≤ 0x6FF) ∧
      process_text cLib "" = ("", none, false) :=
  ⟨rfl, (c5_rtl_detection cLib rfl).1 "ab ج cd", (c5_rtl_detection cLib rfl).2 cLib⟩

/-! ### Claim C6: alignment and coordinate mirroring in `draw_text` -/

/-- C6 (confirmed).  When the text is classified RTL and mirroring is
requested, `left` becomes `right` and `right` becomes `left`, in both
cases with the x coordinate reflected to `PAGE_W - x`; `center`
placements keep their alignment and coordinate whatever the
directionality; and with mirroring suppressed the requested alignment
and coordinate are used unchanged. -/
theorem c6_mirroring (c : Cfg) (x y : ℚ) (txt : String) (fs : ℚ)
    (w va : String) :
    ((process_text c txt).2.2 = true →
      (draw_text c x y txt fs w "left" va true).1 =
        Prim.text (PAGE_W - x) y (process_text c txt).1 (fs + 1) "normal"
          "right" va (process_text c txt).2.1 ∧
      (draw_text c x y txt fs w "right" va true).1 =
        Prim.text (PAGE_W - x) y (process_text c txt).1 (fs + 1) "normal"
          "left" va (process_text c txt).2.1) ∧
    (∀ force_rtl : Bool, ∃ ft ffs fw fp b,
      draw_text c x y txt fs w "center" va force_rtl =
        (Prim.text x y ft ffs fw "center" va fp, b)) ∧
    (∀ ha : String, ∃ ft ffs fw fp b,
      draw_text c x y txt fs w ha va false =
        (Prim.text x y ft ffs fw ha va fp, b)) := by
  refine ⟨fun hu => ⟨?_, ?_⟩, fun force_rtl => ?_, fun ha => ?_⟩
  · rw [draw_text]
    simp [hu]
  · rw [draw_text]
    simp [hu]
  · rw [draw_text]
    by_cases hr : (process_text c txt).2.2 && force_rtl
    · rw [if_pos hr]
      rw [if_neg (by decide : ¬ ("center" : String) = "left")]
      rw [if_neg (by decide : ¬ ("center" : String) = "right")]
      exact ⟨_, _, _, _, _, rfl⟩
    · rw [if_neg hr]
      exact ⟨_, _, _, _, _, rfl⟩
  · rw [draw_text]
    rw [if_neg (by simp : ¬ ((process_text c txt).2.2 && false) = true)]
    exact ⟨_, _, _, _, _, rfl⟩

/-- Witness for C6 at a concrete Urdu run with mirroring requested. -/
theorem c6_mirroring_witness :
    (process_text cLib "ج").2.2 = true ∧
      (draw_text cLib 1 2 "ج" 12 "bold" "left" "top" true).1 =
        Prim.text (PAGE_W - 1) 2 (process_text cLib "ج").1 (12 + 1) "normal"
          "right" "top" (process_text cLib "ج").2.1 :=
  ⟨by decide, ((c6_mirroring cLib 1 2 "ج" 12 "bold" "top").1 (by decide)).1⟩

/-! ### Claim C10: degraded behaviour without the shaping library -/

/-- C10 (confirmed).  With `HAS_URDU_LIB` false, `process_text` returns
`(text, None, False)` for every input, `draw_text` places every run
exactly as requested (no weight/size change, no mirroring, no font
selection), and the whole export is independent of the shaping
functions and of the configured Urdu font. -/
theorem c10_no_lib_degrades :
    (∀ c : Cfg, c.hasLib = false → ∀ t : String,
      process_text c t = (t, none, false)) ∧
    (∀ c : Cfg, c.hasLib = false →
      ∀ (x y : ℚ) (t : String) (fs : ℚ) (wt ha va : String) (fr : Bool),
        draw_text c x y t fs wt ha va fr =
          (Prim.text x y t fs wt ha va none, false)) ∧
    (∀ (r1 g1 : String → String) (f1 : Option String)
       (r2 g2 : String → String) (f2 : Option String)
       (w : String → Nat → List String) (md : Metadata) (sections : List Sect),
      export_pdf ⟨false, r1, g1, f1, w, md⟩ sections =
        export_pdf ⟨false, r2, g2, f2, w, md⟩ sections) := by
  refine ⟨process_text_false, draw_text_false, ?_⟩
  intro r1 g1 f1 r2 g2 f2 w md sections
  have hm : matchRowStep ⟨false, r1, g1, f1, w, md⟩ =
      matchRowStep ⟨false, r2, g2, f2, w, md⟩ := by
    funext a b acc i
    simp only [matchRowStep, draw_text_mk_false]
  have hls : lineStep ⟨false, r1, g1, f1, w, md⟩ =
      lineStep ⟨false, r2, g2, f2, w, md⟩ := by
    funext anchor lnAlign acc ln
    simp only [lineStep, draw_text_mk_false]
  have hq : renderQuestion ⟨false, r1, g1, f1, w, md⟩ =
      renderQuestion ⟨false, r2, g2, f2, w, md⟩ := by
    funext st iq
    simp only [renderQuestion, drawQuestion, qReqH, matchRows, hm, hls,
      process_text_mk_false, draw_text_mk_false]
  have hsec : renderSection ⟨false, r1, g1, f1, w, md⟩ =
      renderSection ⟨false, r2, g2, f2, w, md⟩ := by
    funext st s
    simp only [renderSection, sectionHead, hq, draw_text_mk_false]
  simp only [export_pdf, initLS, headerPrims, hsec, draw_text_mk_false]

/-- Witness for C10: a concrete Urdu string passes through untouched
when the library is absent. -/
theorem c10_no_lib_degrades_witness :
    cDemo.hasLib = false ∧ process_text cDemo "ab ج" = ("ab ج", none, false) :=
  ⟨rfl, c10_no_lib_degrades.1 cDemo rfl "ab ج"⟩

/-! ### Claim C2: the `total_marks` invariant -/

/-- C2 (confirmed).  Sections built by the dialog's `save_data` and
sections produced by `load_csv` always satisfy
`total_marks = marks_per_q * attempt_count`; the persisted `SEC` record
carries exactly the tag, name, description and the two factors (no
`total_marks` field), so the load recomputes the total from the factors
rather than trusting a stored value. -/
theorem c2_total_marks_invariant :
    (∀ (name desc : String) (m a : Int) (qs : List Question) (s : Sect),
        save_data name desc m a qs = some s →
          s.total_marks = s.marks_per_q * s.attempt_count) ∧
    (∀ rows : List (List String), ∀ s ∈ (load_csv rows).1,
        s.total_marks = s.marks_per_q * s.attempt_count) ∧
    (∀ s : Sect, secRecord s =
        ["SEC", s.name, s.desc, intStr s.marks_per_q, intStr s.attempt_count]) := by
  refine ⟨?_, ?_, fun s => rfl⟩
  · intro name desc m a qs s h
    rw [save_data] at h
    by_cases hn : name = ""
    · rw [if_pos hn] at h
      exact absurd h (by simp)
    · rw [if_neg hn] at h
      rw [← Option.some_inj.mp h]
  · intro rows s hs
    exact loadRows_totals rows ([], false) (by simp) s hs

/-- Witness for C2: a dialog save and a CSV load at concrete values. -/
theorem c2_total_marks_invariant_witness :
    (save_data "Section A" "Attempt all" 2 5 [] =
        some ⟨"Section A", "Attempt all", 2, 5, 10, []⟩) ∧
      (10 : Int) = 2 * 5 ∧
      ((⟨"A", "d", 2, 3, 6, []⟩ : Sect) ∈ (load_csv [["SEC", "A", "d", "2", "3"]]).1) ∧
      (6 : Int) = 2 * 3 :=
  ⟨by decide, c2_total_marks_invariant.1 "Section A" "Attempt all" 2 5 []
      ⟨"Section A", "Attempt all", 2, 5, 10, []⟩ (by decide),
    by decide, c2_total_marks_invariant.2.1 [["SEC", "A", "d", "2", "3"]]
      ⟨"A", "d", 2, 3, 6, []⟩ (by decide)⟩

/-! ### Claim C3: save/load round trip -/

/-- C3 (amended).  Saving and reloading preserves section order, question
order, question texts, MCQ option contents and Match Columns column
contents — provided every Match Columns question has two non-empty
columns whose entries contain no `'|'`.  (The claim fails without that
proviso; see the counterexample.) -/
theorem c3_round_trip (md : Metadata) (sections : List Sect)
    (h : roundtripSafe sections = true) :
    (load_csv (saveRows md sections)).2 = true ∧
      (load_csv (saveRows md sections)).1.map sView = sections.map sView := by
  rw [load_csv_saveRows]
  refine ⟨rfl, ?_⟩
  rw [List.map_map]
  exact List.map_congr_left fun s hs =>
    sView_reloadSec s (roundtripSafe_spec sections h s hs)

/-- Witness for C3 on a concrete three-question document. -/
theorem c3_round_trip_witness :
    roundtripSafe docSafe = true ∧
      (load_csv (saveRows mdDemo docSafe)).2 = true ∧
      (load_csv (saveRows mdDemo docSafe)).1.map sView = docSafe.map sView :=
  ⟨by decide, c3_round_trip mdDemo docSafe (by decide)⟩

/-- Counterexample to C3 as stated: an entry containing `'|'` comes back
split in two, so the reloaded document differs from the original. -/
theorem c3_counterexample :
    (load_csv (saveRows mdDemo [secPipe])).1 =
        [⟨"Section A", "d", 2, 3, 6,
          [⟨"Match Columns", "match these", [], ["x", "y"], ["z"]⟩]⟩] ∧
      (load_csv (saveRows mdDemo [secPipe])).1.map sView ≠ [secPipe].map sView := by
  constructor
  · decide
  · decide

/-! ### Claim C4: legacy four-field section records -/

/-- Counterexample to C4: the spec's legacy record
`SEC,"Section A","Attempt any 3",5` does not load with a defaulted
`attemptCount`; the missing fifth field raises, the load aborts, and no
section is produced. -/
theorem c4_counterexample :
    load_csv [["SEC", "Section A", "Attempt any 3", "5"]] = ([], false) := by
  decide

/-- C4 (amended).  `load_csv` reads `attempt_count` unconditionally from
the fifth field, so every four-field `SEC` record makes the load fail
with no section loaded; there is no defaulting to 1. -/
theorem c4_legacy_record_fails (name desc m : String) :
    load_csv [["SEC", name, desc, m]] = ([], false) := by
  have hp : parseSecRow ["SEC", name, desc, m] = none := by
    simp [parseSecRow]
  rw [load_csv,
    show (["SEC", name, desc, m] : List String) = "SEC" :: [name, desc, m] from rfl,
    loadRows_sec_step, hp]

/-! ### Claim C8: failed loads and the prior document -/

/-- C8 (amended).  When a malformed record makes `load_csv` raise, the
exception is caught (and only printed), and `self.sections` — reset to
`[]` before the loop — is left holding exactly the sections parsed from
some leading part of the file; the prior in-memory document is not
restored (it does not even enter `load_csv`). -/
theorem c8_failed_load_keeps_parsed_rows (rows : List (List String))
    (h : (load_csv rows).2 = false) :
    ∃ k, (load_csv (rows.take k)).2 = true ∧
      (load_csv rows).1 = (load_csv (rows.take k)).1 := by
  obtain ⟨k, hk1, hk2⟩ := loadRows_take rows ([], false) h
  exact ⟨k, hk1,
    show (loadRows rows ([], false)).1.1 =
        (loadRows (rows.take k) ([], false)).1.1 from congrArg Prod.fst hk2⟩

/-- Witness for C8 on a file whose second record is malformed. -/
theorem c8_failed_load_keeps_parsed_rows_witness :
    (load_csv rowsBadDemo).2 = false ∧
      ∃ k, (load_csv (rowsBadDemo.take k)).2 = true ∧
        (load_csv rowsBadDemo).1 = (load_csv (rowsBadDemo.take k)).1 :=
  ⟨by decide, c8_failed_load_keeps_parsed_rows rowsBadDemo (by decide)⟩

/-- Counterexample to C8 as stated: after the failed load the in-memory
document is the partially loaded `[S1]` — determined by the file alone —
rather than whatever document was loaded before the call, and it is not
empty either: the load is partially applied, not rolled back. -/
theorem c8_counterexample :
    (load_csv rowsBadDemo).2 = false ∧
      (load_csv rowsBadDemo).1 = [⟨"S1", "d", 2, 3, 6, []⟩] := by
  constructor
  · decide
  · decide

/-! ### Claim C7: Match Columns rendering -/

theorem isRulePrim_draw_text (c : Cfg) (x y : ℚ) (t : String) (fs : ℚ)
    (w ha va : String) (f : Bool) :
    isRulePrim (draw_text c x y t fs w ha va f).1 = false := rfl

theorem mem_ite_singleton {α : Type} {q p : α} {cond : Prop} [Decidable cond]
    (h : q ∈ if cond then [p] else []) : q = p := by
  split at h
  · exact List.mem_singleton.mp h
  · exact absurd h (List.not_mem_nil q)

/-- Generic membership lemma for the Match Columns row loop: every
emitted primitive is a `draw_text` of a column entry. -/
theorem matchRows_all (c : Cfg) (a b : List String) (y : ℚ) (P : Prim → Prop)
    (hP : ∀ (x yy : ℚ) (t : String),
      P (draw_text c x yy t 12 "normal" "left" "baseline" true).1) :
    ∀ n : Nat, ∀ q ∈ ((List.range n).foldl (matchRowStep c a b) ([], y)).1, P q
  | 0 => by simp
  | n + 1 => by
    intro q hq
    rw [List.range_succ, List.foldl_append, List.foldl_cons, List.foldl_nil,
      matchRowStep] at hq
    rcases List.mem_append.mp hq with hq | hq
    · rcases List.mem_append.mp hq with hq | hq
      · exact matchRows_all c a b y P hP n q hq
      · rw [mem_ite_singleton hq]; exact hP _ _ _
    · rw [mem_ite_singleton hq]; exact hP _ _ _

theorem matchRowStep_snd (c : Cfg) (a b : List String)
    (acc : List Prim × ℚ) (i : Nat) :
    (matchRowStep c a b acc i).2 = acc.2 - LH := rfl

theorem matchRowStep_fst_length (c : Cfg) (a b : List String)
    (acc : List Prim × ℚ) (i : Nat) :
    (matchRowStep c a b acc i).1.length =
      acc.1.length + (if i < a.length then 1 else 0) +
        (if i < b.length then 1 else 0) := by
  by_cases ha : i < a.length <;> by_cases hb : i < b.length <;>
    simp [matchRowStep, ha, hb]

/-- Cursor advance and primitive count of the Match Columns row loop. -/
theorem matchRows_range_aux (c : Cfg) (a b : List String) (y : ℚ) :
    ∀ n : Nat,
      ((List.range n).foldl (matchRowStep c a b) ([], y)).2 = y - n * LH ∧
      ((List.range n).foldl (matchRowStep c a b) ([], y)).1.length =
        min n a.length + min n b.length
  | 0 => by simp
  | n + 1 => by
    obtain ⟨ih1, ih2⟩ := matchRows_range_aux c a b y n
    rw [List.range_succ, List.foldl_append, List.foldl_cons, List.foldl_nil]
    constructor
    · rw [matchRowStep_snd, ih1]
      push_cast
      ring
    · rw [matchRowStep_fst_length, ih2]
      by_cases ha : n < a.length <;> by_cases hb : n < b.length <;>
        simp [ha, hb] <;> omega

/-- C7 (amended).  For a Match Columns question `drawQuestion` emits the
two column headers directly followed by the row loop (no separator rule
exists anywhere in the rows: the only rule primitive of the renderer is
the one in the exam header); the rows advance the cursor exactly
`max(len col_a, len col_b)` line heights and hold one text primitive per
existing entry (`len col_a + len col_b` in total), a missing entry
simply drawing nothing.  On the spec's example (columns of lengths 3
and 1) the rows carry `a1, b1, a2, a3`: column B is blank after the
first row. -/
theorem c7_match_columns_rendering :
    (∀ (c : Cfg) (st : LS) (iq : Nat × Question),
        iq.2.type = "Match Columns" →
        ∃ (numPrim : Prim) (linePrims : List Prim) (y' : ℚ),
          (drawQuestion c st iq).cur =
            (st.cur ++ numPrim :: linePrims) ++
              (draw_text c (MARGIN_X + 1) y' "Column A" 12 "bold" "left" "baseline" true).1 ::
              (draw_text c (MARGIN_X + 4) y' "Column B" 12 "bold" "left" "baseline" true).1 ::
              (matchRows c iq.2.col_a iq.2.col_b (y' - LH)).1 ∧
          (drawQuestion c st iq).y =
            (matchRows c iq.2.col_a iq.2.col_b (y' - LH)).2 - 0.2) ∧
    (∀ (c : Cfg) (a b : List String) (y : ℚ),
      (matchRows c a b y).2 = y - ((max a.length b.length : ℕ) : ℚ) * LH ∧
      (matchRows c a b y).1.length = a.length + b.length ∧
      ∀ q ∈ (matchRows c a b y).1, isRulePrim q = false) ∧
    (matchRows cDemo ["a1", "a2", "a3"] ["b1"] 5).1.map textOf =
      [some "a1", some "b1", some "a2", some "a3"] := by
  refine ⟨?_, ?_, by decide⟩
  · intro c st iq h
    have hne : ¬ iq.2.type = "MCQ" := by rw [h]; decide
    simp only [drawQuestion, if_neg hne, if_pos h]
    exact ⟨_, _, _, rfl, rfl⟩
  · intro c a b y
    obtain ⟨h1, h2⟩ := matchRows_range_aux c a b y (max a.length b.length)
    refine ⟨h1, ?_, ?_⟩
    · rw [matchRows, h2]
      have := Nat.le_max_left a.length b.length
      have := Nat.le_max_right a.length b.length
      omega
    · exact matchRows_all c a b y _
        (fun x yy t => isRulePrim_draw_text c x yy t 12 "normal" "left" "baseline" true)
        (max a.length b.length)

/-- Witness for C7 on the spec's 3-versus-1 example. -/
theorem c7_match_columns_rendering_witness :
    qM31.type = "Match Columns" ∧
      ∃ (numPrim : Prim) (linePrims : List Prim) (y' : ℚ),
        (drawQuestion cDemo ⟨[], [], 8⟩ (0, qM31)).cur =
          (([] : List Prim) ++ numPrim :: linePrims) ++
            (draw_text cDemo (MARGIN_X + 1) y' "Column A" 12 "bold" "left" "baseline" true).1 ::
            (draw_text cDemo (MARGIN_X + 4) y' "Column B" 12 "bold" "left" "baseline" true).1 ::
            (matchRows cDemo qM31.col_a qM31.col_b (y' - LH)).1 ∧
        (drawQuestion cDemo ⟨[], [], 8⟩ (0, qM31)).y =
          (matchRows cDemo qM31.col_a qM31.col_b (y' - LH)).2 - 0.2 :=
  ⟨rfl, c7_match_columns_rendering.1 cDemo ⟨[], [], 8⟩ (0, qM31) rfl⟩

/-- Counterexample to C7 as stated: the Match Columns trailer contains
no separator rule at all (while the header block does contain a rule
primitive, so rules are representable). -/
theorem c7_counterexample :
    ((drawQuestion cDemo ⟨[], [], 8⟩ (0, qM31)).cur.filter isRulePrim = []) ∧
      (headerPrims cDemo).filter isRulePrim ≠ [] := by
  constructor
  · decide
  · decide

/-! ### Claim C9: no footer marker is drawn -/

theorem centeredAtOrBelow_box (bnd x y w h : ℚ) :
    centeredAtOrBelow bnd (Prim.box x y w h) = false := rfl

theorem centeredAtOrBelow_rule (bnd x1 x2 y : ℚ) :
    centeredAtOrBelow bnd (Prim.rule x1 x2 y) = false := rfl

/-- A `draw_text` whose requested alignment is not `center` never
produces a centered primitive: the mirroring branches only swap
`left` and `right`. -/
theorem centeredAtOrBelow_draw_text (c : Cfg) (x y : ℚ) (t : String)
    (fs : ℚ) (w ha va : String) (f : Bool) (bnd : ℚ) (h : ¬ ha = "center") :
    centeredAtOrBelow bnd (draw_text c x y t fs w ha va f).1 = false := by
  by_cases hc : ((process_text c t).2.2 && f) = true
  · by_cases h1 : ha = "left"
    · simp [draw_text, centeredAtOrBelow, hc, h1]
    · by_cases h2 : ha = "right"
      · simp [draw_text, centeredAtOrBelow, hc, h1, h2]
      · simp [draw_text, centeredAtOrBelow, hc, h1, h2, h]
  · simp [draw_text, centeredAtOrBelow, hc, h]

/-- A `draw_text` strictly above the bound is never a centered
primitive at or below it: the y coordinate is passed through. -/
theorem centeredAtOrBelow_draw_text_above (c : Cfg) (x y : ℚ) (t : String)
    (fs : ℚ) (w ha va : String) (f : Bool) (bnd : ℚ) (h : ¬ y ≤ bnd) :
    centeredAtOrBelow bnd (draw_text c x y t fs w ha va f).1 = false := by
  simp [draw_text, centeredAtOrBelow, h]

/-- Every primitive of the header block is above the page's vertical
midpoint, so none is a centered run at or below it. -/
theorem headerPrims_ok (c : Cfg) :
    ∀ q ∈ headerPrims c, centeredAtOrBelow (PAGE_H / 2) q = false := by
  intro q hq
  rw [headerPrims] at hq
  simp only [List.mem_cons, List.not_mem_nil, or_false] at hq
  rcases hq with rfl | rfl | rfl | rfl | rfl | rfl | rfl | rfl | rfl | rfl
  · exact centeredAtOrBelow_box _ _ _ _ _
  · exact centeredAtOrBelow_draw_text_above _ _ _ _ _ _ _ _ _ _
      (by norm_num [PAGE_H, MARGIN_TOP])
  · exact centeredAtOrBelow_draw_text_above _ _ _ _ _ _ _ _ _ _
      (by norm_num [PAGE_H, MARGIN_TOP])
  · exact centeredAtOrBelow_rule _ _ _ _
  · exact centeredAtOrBelow_draw_text_above _ _ _ _ _ _ _ _ _ _
      (by norm_num [PAGE_H, MARGIN_TOP])
  · exact centeredAtOrBelow_draw_text_above _ _ _ _ _ _ _ _ _ _
      (by norm_num [PAGE_H, MARGIN_TOP])
  · exact centeredAtOrBelow_draw_text_above _ _ _ _ _ _ _ _ _ _
      (by norm_num [PAGE_H, MARGIN_TOP])
  · exact centeredAtOrBelow_draw_text_above _ _ _ _ _ _ _ _ _ _
      (by norm_num [PAGE_H, MARGIN_TOP])
  · exact centeredAtOrBelow_draw_text_above _ _ _ _ _ _ _ _ _ _
      (by norm_num [PAGE_H, MARGIN_TOP])
  · exact centeredAtOrBelow_draw_text_above _ _ _ _ _ _ _ _ _ _
      (by norm_num [PAGE_H, MARGIN_TOP])

/-- All primitives emitted by the wrapped-line loop keep the no-centered
property (the alignment argument is `left` or `right` at every call
site). -/
theorem lineStep_fold_ok (c : Cfg) (anchor : ℚ) (lnAlign : String)
    (hal : ¬ lnAlign = "center") (bnd : ℚ) :
    ∀ (lines : List String) (p : List Prim) (y : ℚ),
      (∀ q ∈ p, centeredAtOrBelow bnd q = false) →
      ∀ q ∈ (lines.foldl (lineStep c anchor lnAlign) (p, y)).1,
        centeredAtOrBelow bnd q = false
  | [], p, y, hp => by simpa using hp
  | ln :: lines, p, y, hp => by
    rw [List.foldl_cons, lineStep]
    apply lineStep_fold_ok c anchor lnAlign hal bnd lines _ _
    intro q hq
    rcases List.mem_append.mp hq with hq | hq
    · exact hp q hq
    · rw [List.mem_singleton.mp hq]
      exact centeredAtOrBelow_draw_text _ _ _ _ _ _ _ _ _ _ hal

/-- The function `drawQuestion` only adds non-centered primitives to
the current page. -/
theorem drawQuestion_cur_ok (c : Cfg) (st : LS) (iq : Nat × Question)
    (bnd : ℚ) (h : ∀ q ∈ st.cur, centeredAtOrBelow bnd q = false) :
    ∀ q ∈ (drawQuestion c st iq).cur, centeredAtOrBelow bnd q = false := by
  have hnum : ∀ (anchor : ℚ) (lnAlign : String), ¬ lnAlign = "center" →
      ∀ q ∈ st.cur ++
        (draw_text c MARGIN_X st.y (intStr ((iq.1 : Int) + 1) ++ ".") 12 "bold" "left" "top" false).1 ::
        ((c.wrap iq.2.text 80).foldl (lineStep c anchor lnAlign) ([], st.y)).1,
        centeredAtOrBelow bnd q = false := by
    intro anchor lnAlign hal q hq
    rcases List.mem_append.mp hq with hq | hq
    · exact h q hq
    · rcases List.mem_cons.mp hq with rfl | hq
      · exact centeredAtOrBelow_draw_text _ _ _ _ _ _ _ _ _ _ (by decide)
      · exact lineStep_fold_ok c anchor lnAlign hal bnd _ [] _ (by simp) q hq
  intro q hq
  rw [drawQuestion] at hq
  by_cases h1 : iq.2.type = "MCQ"
  · rw [if_pos h1] at hq
    by_cases hu : (process_text c iq.2.text).2.2 = true
    · rw [if_pos hu] at hq
      rw [if_pos hu, if_pos hu] at hq
      rcases List.mem_append.mp hq with hq | hq
      · exact hnum _ _ (by decide) q hq
      · rcases List.mem_append.mp hq with hq | hq
        · rcases List.mem_append.mp hq with hq | hq
          · rcases List.mem_append.mp hq with hq | hq
            · rw [mem_ite_singleton hq]
              exact centeredAtOrBelow_draw_text _ _ _ _ _ _ _ _ _ _ (by decide)
            · rw [mem_ite_singleton hq]
              exact centeredAtOrBelow_draw_text _ _ _ _ _ _ _ _ _ _ (by decide)
          · rw [mem_ite_singleton hq]
            exact centeredAtOrBelow_draw_text _ _ _ _ _ _ _ _ _ _ (by decide)
        · rw [mem_ite_singleton hq]
          exact centeredAtOrBelow_draw_text _ _ _ _ _ _ _ _ _ _ (by decide)
    · rw [if_neg hu] at hq
      rw [if_neg hu, if_neg hu] at hq
      rcases List.mem_append.mp hq with hq | hq
      · rcases List.mem_append.mp hq with hq | hq
        · exact hnum _ _ (by decide) q hq
        · rcases List.mem_append.mp hq with hq | hq
          · rw [mem_ite_singleton hq]
            exact centeredAtOrBelow_draw_text _ _ _ _ _ _ _ _ _ _ (by decide)
          · rw [mem_ite_singleton hq]
            exact centeredAtOrBelow_draw_text _ _ _ _ _ _ _ _ _ _ (by decide)
      · rcases List.mem_append.mp hq with hq | hq
        · rw [mem_ite_singleton hq]
          exact centeredAtOrBelow_draw_text _ _ _ _ _ _ _ _ _ _ (by decide)
        · rw [mem_ite_singleton hq]
          exact centeredAtOrBelow_draw_text _ _ _ _ _ _ _ _ _ _ (by decide)
  · rw [if_neg h1] at hq
    by_cases h2 : iq.2.type = "Match Columns"
    · rw [if_pos h2] at hq
      rcases List.mem_append.mp hq with hq | hq
      · refine hnum _ _ ?_ q hq
        by_cases hu : (process_text c iq.2.text).2.2 = true
        · rw [if_pos hu]; decide
        · rw [if_neg hu]; decide
      · rcases List.mem_cons.mp hq with rfl | hq
        · exact centeredAtOrBelow_draw_text _ _ _ _ _ _ _ _ _ _ (by decide)
        · rcases List.mem_cons.mp hq with rfl | hq
          · exact centeredAtOrBelow_draw_text _ _ _ _ _ _ _ _ _ _ (by decide)
          · exact matchRows_all c _ _ _
              (fun pr => centeredAtOrBelow bnd pr = false)
              (fun x yy t =>
                centeredAtOrBelow_draw_text c x yy t 12 "normal" "left" "baseline" true bnd (by decide))
              _ q hq
    · rw [if_neg h2] at hq
      refine hnum _ _ ?_ q hq
      by_cases hu : (process_text c iq.2.text).2.2 = true
      · rw [if_pos hu]; decide
      · rw [if_neg hu]; decide

/-- Drawing a question never flushes: the list of finished pages is
untouched. -/
theorem drawQuestion_pages (c : Cfg) (st : LS) (iq : Nat × Question) :
    (drawQuestion c st iq).pages = st.pages := by
  rw [drawQuestion]
  by_cases h1 : iq.2.type = "MCQ"
  · rw [if_pos h1]
    by_cases hu : (process_text c iq.2.text).2.2 = true
    · rw [if_pos hu]
    · rw [if_neg hu]
  · rw [if_neg h1]
    by_cases h2 : iq.2.type = "Match Columns"
    · rw [if_pos h2]
    · rw [if_neg h2]

theorem renderQuestion_stOK (c : Cfg) (st : LS) (iq : Nat × Question)
    (bnd : ℚ) (h : stOK bnd st) : stOK bnd (renderQuestion c st iq) := by
  rw [renderQuestion]
  by_cases hb : st.y - qReqH c iq.2 < MARGIN_BTM
  · rw [if_pos hb]
    constructor
    · show ∀ p ∈ (drawQuestion c ⟨st.pages ++ [st.cur], [], PAGE_H - MARGIN_TOP⟩ iq).pages, _
      rw [show (drawQuestion c ⟨st.pages ++ [st.cur], [], PAGE_H - MARGIN_TOP⟩ iq).pages =
          st.pages ++ [st.cur] from drawQuestion_pages c _ iq]
      intro p hp
      rcases List.mem_append.mp hp with hp | hp
      · exact h.1 p hp
      · rw [List.mem_singleton.mp hp]
        exact h.2
    · exact drawQuestion_cur_ok c ⟨st.pages ++ [st.cur], [], PAGE_H - MARGIN_TOP⟩ iq bnd
        (by simp)
  · rw [if_neg hb]
    constructor
    · rw [show (drawQuestion c st iq).pages = st.pages from drawQuestion_pages c st iq]
      exact h.1
    · exact drawQuestion_cur_ok c st iq bnd h.2

theorem sectionHead_stOK (c : Cfg) (st : LS) (s : Sect)
    (bnd : ℚ) (h : stOK bnd st) : stOK bnd (sectionHead c st s) := by
  rw [sectionHead]
  have hbase : ∀ (st' : LS), stOK bnd st' →
      stOK bnd
        { pages := st'.pages,
          cur := st'.cur ++
            [Prim.box MARGIN_X (st'.y - 0.4) CONTENT_W 0.4,
             (draw_text c (MARGIN_X + 0.1) (st'.y - 0.25)
               (s.name ++ "   " ++ s.desc) 12 "bold" "left" "baseline" true).1,
             (draw_text c (PAGE_W - MARGIN_X - 0.1) (st'.y - 0.25)
               ("(" ++ intStr s.marks_per_q ++ " x " ++ intStr s.attempt_count ++
                 " = " ++ intStr s.total_marks ++ ")") 12 "bold" "right" "baseline" true).1],
          y := st'.y - 0.6 } := by
    intro st' h'
    refine ⟨h'.1, ?_⟩
    intro q hq
    rcases List.mem_append.mp hq with hq | hq
    · exact h'.2 q hq
    · rcases List.mem_cons.mp hq with rfl | hq
      · exact centeredAtOrBelow_box _ _ _ _ _
      · rcases List.mem_cons.mp hq with rfl | hq
        · exact centeredAtOrBelow_draw_text _ _ _ _ _ _ _ _ _ _ (by decide)
        · rw [List.mem_singleton.mp hq]
          exact centeredAtOrBelow_draw_text _ _ _ _ _ _ _ _ _ _ (by decide)
  by_cases hb : st.y < MARGIN_BTM + 1
  · rw [if_pos hb]
    refine hbase _ ⟨?_, by simp⟩
    intro p hp
    rcases List.mem_append.mp hp with hp | hp
    · exact h.1 p hp
    · rw [List.mem_singleton.mp hp]
      exact h.2
  · rw [if_neg hb]
    exact hbase st h

theorem foldl_renderQuestion_stOK (c : Cfg) (bnd : ℚ) :
    ∀ (l : List (Nat × Question)) (st : LS), stOK bnd st →
      stOK bnd (l.foldl (renderQuestion c) st)
  | [], st, h => h
  | iq :: l, st, h => by
    rw [List.foldl_cons]
    exact foldl_renderQuestion_stOK c bnd l _ (renderQuestion_stOK c st iq bnd h)

theorem renderSection_stOK (c : Cfg) (st : LS) (s : Sect)
    (bnd : ℚ) (h : stOK bnd st) : stOK bnd (renderSection c st s) :=
  foldl_renderQuestion_stOK c bnd s.questions.enum (sectionHead c st s)
    (sectionHead_stOK c st s bnd h)

theorem foldl_renderSection_stOK (c : Cfg) (bnd : ℚ) :
    ∀ (ss : List Sect) (st : LS), stOK bnd st →
      stOK bnd (ss.foldl (renderSection c) st)
  | [], st, h => h
  | s :: ss, st, h => by
    rw [List.foldl_cons]
    exact foldl_renderSection_stOK c bnd ss _ (renderSection_stOK c st s bnd h)

/-- C9 (amended).  After laying out all sections `export_pdf` emits the
final figure directly: no footer marker exists.  In particular no page
of any export — final page included — contains a centered text run at or
below the page's vertical midpoint (the bottom margin region included);
the only centered runs the renderer ever produces are the two header
lines near the top of the first page. -/
theorem c9_no_bottom_centered_footer (c : Cfg) (sections : List Sect) :
    ∀ p ∈ export_pdf c sections, ∀ q ∈ p,
      centeredAtOrBelow (PAGE_H / 2) q = false := by
  have hfold : stOK (PAGE_H / 2) (sections.foldl (renderSection c) (initLS c)) := by
    apply foldl_renderSection_stOK
    constructor
    · intro p hp
      exact absurd hp (List.not_mem_nil p)
    · exact headerPrims_ok c
  intro p hp q hq
  rw [export_pdf] at hp
  rcases List.mem_append.mp hp with hp | hp
  · exact hfold.1 p hp q hq
  · rw [List.mem_singleton.mp hp] at hq
    exact hfold.2 q hq

/-- Witness for C9: the centered school-name line of the empty
document's only page is far above the bottom margin, and the theorem
reports it as such. -/
theorem c9_no_bottom_centered_footer_witness :
    centeredAtOrBelow (PAGE_H / 2)
      ((draw_text cDemo (PAGE_W / 2) (PAGE_H - MARGIN_TOP - 0.3) mdDemo.school
        18 "bold" "center" "baseline" true).1) = false :=
  c9_no_bottom_centered_footer cDemo [] (headerPrims cDemo)
    (by rw [show export_pdf cDemo [] = [headerPrims cDemo] from rfl]
        exact List.mem_singleton_self _)
    _
    (by rw [headerPrims]
        exact List.mem_cons_of_mem _ (List.mem_cons_self _ _))

/-- Counterexample to C9 as stated: the export of a document with no
sections consists of the header block alone — `export_pdf` draws nothing
after the section loop, so no centered footer marker is placed at the
bottom margin of the final page before emitting it. -/
theorem c9_counterexample :
    export_pdf cDemo [] = [headerPrims cDemo] ∧
      ∀ q ∈ headerPrims cDemo, centeredAtOrBelow (PAGE_H / 2) q = false :=
  ⟨rfl, headerPrims_ok cDemo⟩

/-! ### Claim C1: the space check and pagination -/

/-- When the question's estimated extent does not fit above the bottom
margin, the current figure is finalized, a fresh page is started, the
cursor is reset to `PAGE_H - MARGIN_TOP`, and only then is the question
drawn. -/
theorem renderQuestion_break (c : Cfg) (st : LS) (iq : Nat × Question)
    (h : st.y - qReqH c iq.2 < MARGIN_BTM) :
    renderQuestion c st iq =
      drawQuestion c ⟨st.pages ++ [st.cur], [], PAGE_H - MARGIN_TOP⟩ iq := by
  rw [renderQuestion, if_pos h]

/-- When the question fits, it is drawn on the current page as is. -/
theorem renderQuestion_no_break (c : Cfg) (st : LS) (iq : Nat × Question)
    (h : ¬ st.y - qReqH c iq.2 < MARGIN_BTM) :
    renderQuestion c st iq = drawQuestion c st iq := by
  rw [renderQuestion, if_neg h]

theorem renderQuestion_pages_ne (c : Cfg) (st : LS) (iq : Nat × Question)
    (h : st.pages ≠ []) : (renderQuestion c st iq).pages ≠ [] := by
  rw [renderQuestion]
  by_cases hb : st.y - qReqH c iq.2 < MARGIN_BTM
  · rw [if_pos hb, drawQuestion_pages]
    simp
  · rw [if_neg hb, drawQuestion_pages]
    exact h

theorem sectionHead_pages_ne (c : Cfg) (st : LS) (s : Sect)
    (h : st.pages ≠ []) : (sectionHead c st s).pages ≠ [] := by
  rw [sectionHead]
  by_cases hb : st.y < MARGIN_BTM + 1
  · rw [if_pos hb]
    simp
  · rw [if_neg hb]
    exact h

theorem foldl_renderQuestionB_fst (c : Cfg) :
    ∀ (l : List (Nat × Question)) (sb : LS × Bool),
      (l.foldl (renderQuestionB c) sb).1 = l.foldl (renderQuestion c) sb.1
  | [], _ => rfl
  | iq :: l, sb => by
    rw [List.foldl_cons, List.foldl_cons]
    exact foldl_renderQuestionB_fst c l _

theorem foldl_renderSectionB_fst (c : Cfg) :
    ∀ (ss : List Sect) (sb : LS × Bool),
      (ss.foldl (renderSectionB c) sb).1 = ss.foldl (renderSection c) sb.1
  | [], _ => rfl
  | s :: ss, sb => by
    rw [List.foldl_cons, List.foldl_cons]
    rw [foldl_renderSectionB_fst c ss (renderSectionB c sb s)]
    congr 1
    exact foldl_renderQuestionB_fst c s.questions.enum (sectionHead c sb.1 s, sb.2)

theorem foldl_renderQuestionB_ne (c : Cfg) :
    ∀ (l : List (Nat × Question)) (sb : LS × Bool),
      (sb.2 = true → sb.1.pages ≠ []) →
      (l.foldl (renderQuestionB c) sb).2 = true →
      (l.foldl (renderQuestionB c) sb).1.pages ≠ []
  | [], _, h => h
  | iq :: l, sb, h => by
    rw [List.foldl_cons]
    apply foldl_renderQuestionB_ne c l
    rw [renderQuestionB]
    intro hflag
    rw [Bool.or_eq_true] at hflag
    rcases hflag with hf | hf
    · exact renderQuestion_pages_ne c sb.1 iq (h hf)
    · have hcond := of_decide_eq_true hf
      rw [renderQuestion_break c sb.1 iq hcond, drawQuestion_pages]
      simp
  termination_by l => l.length

theorem foldl_renderSectionB_ne (c : Cfg) :
    ∀ (ss : List Sect) (sb : LS × Bool),
      (sb.2 = true → sb.1.pages ≠ []) →
      (ss.foldl (renderSectionB c) sb).2 = true →
      (ss.foldl (renderSectionB c) sb).1.pages ≠ []
  | [], _, h => h
  | s :: ss, sb, h => by
    rw [List.foldl_cons]
    apply foldl_renderSectionB_ne c ss
    apply foldl_renderQuestionB_ne c s.questions.enum (sectionHead c sb.1 s, sb.2)
    intro hf
    exact sectionHead_pages_ne c sb.1 s (h hf)

/-- If any question's space check fires, the export holds at least two
pages. -/
theorem anyBreak_two_pages (c : Cfg) (sections : List Sect)
    (h : anyBreak c sections = true) : 2 ≤ (export_pdf c sections).length := by
  have hne : (sections.foldl (renderSectionB c) (initLS c, false)).1.pages ≠ [] :=
    foldl_renderSectionB_ne c sections (initLS c, false) (by simp) h
  rw [foldl_renderSectionB_fst c sections (initLS c, false)] at hne
  rw [show ((initLS c, false) : LS × Bool).1 = initLS c from rfl] at hne
  show 2 ≤ ((sections.foldl (renderSection c) (initLS c)).pages ++
    [(sections.foldl (renderSection c) (initLS c)).cur]).length
  rw [List.length_append, List.length_singleton]
  have := List.length_pos.mpr hne
  omega

/-- C1 (amended).  Before a question is drawn the engine computes the
required extent `len(lines) * LH + 0.15` plus `0.8` for MCQ and `1.5`
for Match Columns; when `cursor - requiredExtent < bottomMargin` it
finalizes the current page, starts a new one, resets the cursor to
`pageHeight - topMargin` and only then draws (first conjunct), otherwise
it draws in place (second conjunct); consequently whenever any
question's space check fires the export emits at least two pages (third
conjunct). -/
theorem c1_space_check_pagination :
    (∀ (c : Cfg) (st : LS) (iq : Nat × Question),
        st.y - qReqH c iq.2 < MARGIN_BTM →
          renderQuestion c st iq =
            drawQuestion c ⟨st.pages ++ [st.cur], [], PAGE_H - MARGIN_TOP⟩ iq) ∧
    (∀ (c : Cfg) (st : LS) (iq : Nat × Question),
        ¬ st.y - qReqH c iq.2 < MARGIN_BTM →
          renderQuestion c st iq = drawQuestion c st iq) ∧
    (∀ (c : Cfg) (sections : List Sect),
        anyBreak c sections = true → 2 ≤ (export_pdf c sections).length) :=
  ⟨renderQuestion_break, renderQuestion_no_break, anyBreak_two_pages⟩

/-- The eleventh question of `secEleven` triggers the space check. -/
theorem anyBreak_secEleven : anyBreak cDemo [secEleven] = true := by
  norm_num [anyBreak, renderSectionB, renderQuestionB, renderQuestion,
    drawQuestion, sectionHead, qReqH, initLS, cDemo, secEleven, qMcq, lineStep,
    List.foldl_cons, List.foldl_nil, List.enum_cons, List.enumFrom,
    process_text_mk_false, draw_text_mk_false,
    show simpleWrap "Q1" 80 = ["Q1"] from rfl,
    show (("MCQ" : String) = "Match Columns") = False from eq_false (by decide),
    LH, PAGE_H, PAGE_W, MARGIN_TOP, MARGIN_BTM, MARGIN_X]

/-- Counterexample to C1's pagination bound as stated: the cumulative
required extent of `secTen`'s questions (11.6) exceeds
`H - T - B = 10.69`, yet the export emits a single page — the space
check compares against the cursor, which descends by the actual
consumption of each question (0.72 here), not by its required extent
(1.16), so no break fires. -/
theorem c1_counterexample :
    PAGE_H - MARGIN_TOP - MARGIN_BTM < cumulativeRequiredExtent cDemo [secTen] ∧
      (export_pdf cDemo [secTen]).length = 1 := by
  constructor
  · norm_num [cumulativeRequiredExtent, qReqH, cDemo, secTen, qMcq,
      List.map_cons, List.map_nil, List.sum_cons, List.sum_nil,
      show simpleWrap "Q1" 80 = ["Q1"] from rfl,
      show (("MCQ" : String) = "Match Columns") = False from eq_false (by decide),
      LH, PAGE_H, MARGIN_TOP, MARGIN_BTM]
  · norm_num [export_pdf, renderSection, renderQuestion, drawQuestion,
      sectionHead, qReqH, initLS, cDemo, secTen, qMcq, lineStep,
      List.foldl_cons, List.foldl_nil, List.enum_cons, List.enumFrom,
      process_text_mk_false, draw_text_mk_false,
      show simpleWrap "Q1" 80 = ["Q1"] from rfl,
      show (("MCQ" : String) = "Match Columns") = False from eq_false (by decide),
      LH, PAGE_H, PAGE_W, MARGIN_TOP, MARGIN_BTM, MARGIN_X]

/-- Witness for C1 on `secEleven`, where the check does fire. -/
theorem c1_space_check_pagination_witness :
    anyBreak cDemo [secEleven] = true ∧
      2 ≤ (export_pdf cDemo [secEleven]).length :=
  ⟨anyBreak_secEleven,
   c1_space_check_pagination.2.2 cDemo [secEleven] anyBreak_secEleven⟩
